import Mathlib

/-!
Verification of `src/octave/list-matlab-package-functions.py`.

The script walks an XML tree of Matlab reference entries, resolves
fully-qualified class names, and prints the sorted name list as an Octave
`case` fragment.  Python strings are modelled as Lean `String`s (lists of
characters); Python slicing, `str.find`, `str.startswith`, `str.endswith`
and dictionary lookup are modelled by the `py*` helpers below with Python's
exact index-clamping semantics.  A failed `assert` is modelled as
`Option.none` (the process dies with a non-zero status), a normal result as
`some`.  Printing is modelled as the exact string written to stdout
(each Python `print` appends the text plus, unless suppressed, a newline).
-/

/-- Clamping of a Python slice index against a sequence of length `n`:
negative indices count from the end, then the result is clamped to
`[0, n]`. -/
def pyClampIdx (n : Nat) (i : Int) : Nat :=
  if i < 0 then (i + n).toNat else min i.toNat n

/-- Python slice `s[a:b]` (step 1) with Python's index clamping. -/
def pySlice (s : String) (a b : Int) : String :=
  ⟨(s.data.take (pyClampIdx s.data.length b)).drop (pyClampIdx s.data.length a)⟩

/-- Index of the first occurrence of character `c` in a character list. -/
def pyFindIdx (c : Char) : List Char → Option Nat
  | [] => none
  | x :: xs => if x == c then some 0 else (pyFindIdx c xs).map (· + 1)

/-- Python `s.find(c, a, b)` for a single-character needle: the lowest
index `i` with `a' ≤ i < b'` (after clamping) such that `s[i] = c`,
and `-1` when there is none. -/
def pyFind (s : String) (c : Char) (a b : Int) : Int :=
  match pyFindIdx c ((s.data.take (pyClampIdx s.data.length b)).drop (pyClampIdx s.data.length a)) with
  | some i => (pyClampIdx s.data.length a : Int) + i
  | none => -1

/-- Python `s.startswith(p)`. -/
def pyStartsWith (s p : String) : Bool := p.data.isPrefixOf s.data

/-- Python `s.endswith(p)`. -/
def pyEndsWith (s p : String) : Bool := p.data.isSuffixOf s.data

/-- Python `s.lower()` restricted to ASCII (the only case the spec
speaks about): `A`..`Z` are shifted by 32, all other characters kept. -/
def pyAsciiLower (s : String) : String :=
  ⟨s.data.map (fun c => if 65 ≤ c.toNat ∧ c.toNat ≤ 90 then Char.ofNat (c.toNat + 32) else c)⟩

/-- Lookup in a Python dict modelled as an association list
(`element.attrib` in the script). -/
def pyDictGet (d : List (String × String)) (k : String) : Option String :=
  (d.find? (fun p => p.1 == k)).map (fun p => p.2)

/-- Python string `≤`: lexicographic comparison of code points
(`Char.toNat`), as used by `sorted`. -/
def pyLeChars : List Char → List Char → Bool
  | [], _ => true
  | _ :: _, [] => false
  | a :: as, b :: bs =>
    if a.toNat < b.toNat then true
    else if b.toNat < a.toNat then false
    else pyLeChars as bs

/-- Python `s <= t` on strings. -/
def pyStrLe (s t : String) : Bool := pyLeChars s.data t.data

/-- Ordered insertion with respect to `pyStrLe`. -/
def pyInsert (s : String) : List String → List String
  | [] => [s]
  | t :: ts => if pyStrLe s t then s :: t :: ts else t :: pyInsert s ts

/-- Python `sorted` on a list of strings.  Python's sort is a stable
mergesort over `<`; since code-point comparison is a decidable linear
order (equal-comparing strings are equal), its output is the unique
sorted permutation of the input, which insertion sort also computes. -/
def pySorted (l : List String) : List String := l.foldr pyInsert []

/-! The source functions (lines 27-110 of the script). -/

/-- Module-level flag `_PRINT_FQCN` (line 27 of the script). -/
def _PRINT_FQCN : Bool := true

/-- The shape asserted by `has_dot_in_target_basename` (lines 41-45):
`target.startswith("ref/") and target.find("/", 4) == -1 and
target.endswith(".html")`. -/
def target_shape_ok (target : String) : Bool :=
  pyStartsWith target "ref/" && pyFind target '/' 4 (target.length : Int) == -1
    && pyEndsWith target ".html"

/-- Embedding of `has_dot_in_target_basename` (lines 40-46).  The failed
assert is `none`; otherwise the result is `target.find(".", 4, -5) > -1`. -/
def has_dot_in_target_basename (target : String) : Option Bool :=
  if target_shape_ok target then
    some (decide (pyFind target '.' 4 (-5) > -1))
  else
    none

/-- Embedding of `parse_fq_class_name` (lines 49-54):
`fqcn_lc = target[4:-5]; return fqcn_lc[:-len(name)] + name`, with the
local `fqcn_lc` inlined. -/
def parse_fq_class_name (target name : String) : String :=
  pySlice (pySlice target 4 (-5)) 0 (-(name.length : Int)) ++ name

/-- The namespace-qualified tag compared against on line 62 of the script. -/
def matlab_ref_tag : String := "\x7bhttps://www.mathworks.com/help/ref/data\x7dref"

/-- An XML element as used by the script: a tag, an attribute dict and a
list of children. -/
inductive XmlElement where
  | mk (tag : String) (attrib : List (String × String)) (children : List XmlElement)

/-- Tag of an element. -/
def XmlElement.tag : XmlElement → String
  | .mk t _ _ => t

/-- Attribute dict of an element. -/
def XmlElement.attrib : XmlElement → List (String × String)
  | .mk _ a _ => a

/-- Children of an element. -/
def XmlElement.children : XmlElement → List XmlElement
  | .mk _ _ c => c

/-- The per-node part of `deep_search_for_functions` (lines 62-83): the
list of names the node itself contributes.  `none` models a failed
assert: an empty attribute dict (falsy `element.attrib`) or a missing
`name`/`target` key.  With the flag set, a target failing the shape
assert inside `has_dot_in_target_basename` also yields `none`. -/
def ref_entry_contribution (pf : Bool) (tag : String)
    (attrib : List (String × String)) : Option (List String) :=
  if tag == matlab_ref_tag then
    if attrib.isEmpty then none
    else
      match pyDictGet attrib "name", pyDictGet attrib "target" with
      | some name, some target =>
        if pf then
          match has_dot_in_target_basename target with
          | some true => some [parse_fq_class_name target name]
          | some false => some [name]
          | none => none
        else some [name]
      | _, _ => none
  else some []

mutual

/-- Embedding of `deep_search_for_functions` (lines 57-88), with the
global `_PRINT_FQCN` made a parameter `pf`. -/
def deep_search_for_functions (pf : Bool) : XmlElement → Option (List String)
  | XmlElement.mk tag attrib children =>
    match ref_entry_contribution pf tag attrib, deepList pf children with
    | some own, some rest => some (own ++ rest)
    | _, _ => none

/-- The `for children in list(element)` loop (lines 85-86): concatenated
results of the recursive calls, `none` as soon as one dies. -/
def deepList (pf : Bool) : List XmlElement → Option (List String)
  | [] => some []
  | e :: es =>
    match deep_search_for_functions pf e, deepList pf es with
    | some a, some b => some (a ++ b)
    | _, _ => none

end

/-- One iteration of the loop in `print_for_octave` (lines 101-109):
state is (text printed so far, `cur_pos`). -/
def octave_step (acc : String × Nat) (f : String) : String × Nat :=
  if acc.2 + (f.length + 7) > 79 then
    ((acc.1 ++ "...\n" ++ "          ") ++ ("\x22" ++ f ++ "\x22, "), 10 + (f.length + 4))
  else
    (acc.1 ++ ("\x22" ++ f ++ "\x22, "), acc.2 + (f.length + 4))

/-- Embedding of `print_for_octave` (lines 91-110): the exact text
written to stdout (the final print emits the closing brace and a
newline). -/
def print_for_octave (functions : List String) : String :=
  ((pySorted functions).foldl octave_step ("    case \x7b", 10)).1 ++ "\x7d\n"

/-! Specification-side definitions, written from the spec's words, to be
compared against the code embedding above. -/

/-- Modelled from the spec (section 4.3): the resolver "take the
lower-case qualified string, drop exactly `len(name)` characters from its
end, and concatenate the original-case `name` onto that prefix". -/
def resolve_spec (q n : String) : String :=
  ⟨q.data.take (q.data.length - n.data.length)⟩ ++ n

mutual

/-- All nodes of a tree in depth-first pre-order (document order). -/
def nodesOf : XmlElement → List XmlElement
  | XmlElement.mk tag attrib children =>
    XmlElement.mk tag attrib children :: nodesOfList children

/-- Pre-order node lists of a forest, concatenated. -/
def nodesOfList : List XmlElement → List XmlElement
  | [] => []
  | e :: es => nodesOf e ++ nodesOfList es

end

/-- Spec-side flat collection: the concatenated per-node contributions of
a list of nodes, `none` as soon as one node's assert fails. -/
def collect_contribs (pf : Bool) : List XmlElement → Option (List String)
  | [] => some []
  | nd :: rest =>
    match ref_entry_contribution pf nd.tag nd.attrib, collect_contribs pf rest with
    | some a, some b => some (a ++ b)
    | _, _ => none

/-- Spec-side rendering of the formatter as a list of output lines
(section 4.4): running column position, wrap when `pos + len + 7 > 79`,
`...` at the end of the wrapped line, continuation indented ten spaces,
position advances by `len + 4`, final line closed with `}`. -/
def wrapLines : List String → Nat → String → List String
  | [], _, line => [line ++ "\x7d"]
  | f :: fs, pos, line =>
    if pos + (f.length + 7) > 79 then
      (line ++ "...") :: wrapLines fs (10 + (f.length + 4)) ("          " ++ ("\x22" ++ f ++ "\x22, "))
    else
      wrapLines fs (pos + (f.length + 4)) (line ++ ("\x22" ++ f ++ "\x22, "))

/-- Join lines with newlines. -/
def joinLines : List String → String
  | [] => ""
  | [l] => l
  | l :: l2 :: ls => l ++ "\n" ++ joinLines (l2 :: ls)

/-- A node that is a reference entry, passes the attribute-presence
assert, but whose `target` violates the `ref/<basename>.html` shape. -/
def bad_shape_ref_node (nd : XmlElement) : Bool :=
  nd.tag == matlab_ref_tag && !nd.attrib.isEmpty
    && (pyDictGet nd.attrib "name").isSome
    && (match pyDictGet nd.attrib "target" with
        | some t => !target_shape_ok t
        | none => false)

/-- A reference-entry node violating the attribute-presence assert:
empty attribute dict, or a missing `name` or `target` key. -/
def ref_missing_attr_node (nd : XmlElement) : Bool :=
  nd.tag == matlab_ref_tag
    && (nd.attrib.isEmpty || (pyDictGet nd.attrib "name").isNone
        || (pyDictGet nd.attrib "target").isNone)

/-- The end-to-end example tree of the spec (section 8): a root with two
reference entries. -/
def example_tree : XmlElement :=
  XmlElement.mk "root" []
    [XmlElement.mk matlab_ref_tag [("name", "foo"), ("target", "ref/foo.html")] [],
     XmlElement.mk matlab_ref_tag [("name", "Bar"), ("target", "ref/myclass.bar.html")] []]

/-- A matched node nested inside a matched node with the same name:
exercises child traversal of matched nodes and duplicate preservation. -/
def nested_example_tree : XmlElement :=
  XmlElement.mk matlab_ref_tag [("name", "f"), ("target", "ref/f.html")]
    [XmlElement.mk matlab_ref_tag [("name", "f"), ("target", "ref/f.html")] []]

/-! Helper lemmas about the Python string model. -/

theorem str_data_append (s t : String) : (s ++ t).data = s.data ++ t.data := rfl

theorem str_length_data (s : String) : s.length = s.data.length := rfl

theorem isPre_append (p t : List Char) : p.isPrefixOf (p ++ t) = true := by
  induction p with
  | nil => simp
  | cons a as ih => simp [List.isPrefixOf, ih]

theorem isPre_extend (p : List Char) :
    ∀ x y : List Char, p.isPrefixOf x = true → p.isPrefixOf (x ++ y) = true := by
  induction p with
  | nil => intro x y _; simp
  | cons a as ih =>
    intro x y h
    cases x with
    | nil => simp [List.isPrefixOf] at h
    | cons b bs =>
      simp only [List.isPrefixOf_cons₂, Bool.and_eq_true] at h
      simp only [List.cons_append, List.isPrefixOf_cons₂, Bool.and_eq_true]
      exact ⟨h.1, ih bs y h.2⟩

theorem isPre_length_le : ∀ p l : List Char, p.isPrefixOf l = true → p.length ≤ l.length := by
  intro p
  induction p with
  | nil => intro l _; simp
  | cons a as ih =>
    intro l h
    cases l with
    | nil => simp [List.isPrefixOf] at h
    | cons b bs =>
      simp only [List.isPrefixOf_cons₂, Bool.and_eq_true] at h
      have := ih bs h.2
      simp only [List.length_cons]
      omega

theorem isSuf_append (x y : List Char) : x.isSuffixOf (y ++ x) = true := by
  simp only [List.isSuffixOf, List.reverse_append]
  exact isPre_append x.reverse y.reverse

theorem isSuf_length_le (x l : List Char) (h : x.isSuffixOf l = true) :
    x.length ≤ l.length := by
  simp only [List.isSuffixOf] at h
  have := isPre_length_le x.reverse l.reverse h
  simpa using this

theorem pyFindIdx_eq_none_iff (c : Char) (l : List Char) :
    pyFindIdx c l = none ↔ c ∉ l := by
  induction l with
  | nil => simp [pyFindIdx]
  | cons a as ih =>
    by_cases h : a == c
    · have : a = c := eq_of_beq h
      subst this
      simp [pyFindIdx]
    · have hne : ¬(c = a) := fun hc => h (by simp [hc])
      simp [pyFindIdx, h, Option.map_eq_none', ih, List.mem_cons, hne]

theorem ref_html_data (b : String) :
    ("ref/" ++ b ++ ".html").data = ("ref/".data ++ b.data) ++ ".html".data := by
  rw [str_data_append, str_data_append]

theorem rbh_length (b : String) :
    (("ref/".data ++ b.data) ++ ".html".data).length = b.data.length + 9 := by
  simp [List.length_append]

theorem rbh_take_drop_mid (b : String) :
    ((("ref/".data ++ b.data) ++ ".html".data).take (b.data.length + 4)).drop 4 = b.data := by
  rw [show b.data.length + 4 = ("ref/".data ++ b.data).length by simp [List.length_append]]
  rw [List.take_left]
  rw [show (4 : Nat) = ("ref/".data : List Char).length from rfl, List.drop_left]

theorem rbh_drop4 (b : String) :
    (("ref/".data ++ b.data) ++ ".html".data).drop 4 = b.data ++ ".html".data := by
  rw [List.append_assoc]
  rw [show (4 : Nat) = ("ref/".data : List Char).length from rfl, List.drop_left]

theorem pySlice_ref_html (b : String) : pySlice ("ref/" ++ b ++ ".html") 4 (-5) = b := by
  unfold pySlice
  rw [ref_html_data, rbh_length]
  rw [show pyClampIdx (b.data.length + 9) (-5) = b.data.length + 4 by
        unfold pyClampIdx; split <;> omega]
  rw [show pyClampIdx (b.data.length + 9) 4 = 4 by
        unfold pyClampIdx; split <;> omega]
  rw [rbh_take_drop_mid]

theorem pyFind_ref_html_dot (b : String) :
    pyFind ("ref/" ++ b ++ ".html") '.' 4 (-5)
      = (match pyFindIdx '.' b.data with
         | some i => ((4 + i : Nat) : Int)
         | none => -1) := by
  unfold pyFind
  rw [ref_html_data, rbh_length]
  rw [show pyClampIdx (b.data.length + 9) (-5) = b.data.length + 4 by
        unfold pyClampIdx; split <;> omega]
  rw [show pyClampIdx (b.data.length + 9) 4 = 4 by
        unfold pyClampIdx; split <;> omega]
  rw [rbh_take_drop_mid]
  cases h : pyFindIdx '.' b.data with
  | none => rfl
  | some i => push_cast; ring

theorem pyFind_ref_html_slash (b : String) (hb : '/' ∉ b.data) :
    pyFind ("ref/" ++ b ++ ".html") '/' 4 ((("ref/" ++ b ++ ".html").length : Int)) = -1 := by
  unfold pyFind
  rw [str_length_data, ref_html_data, rbh_length]
  rw [show pyClampIdx (b.data.length + 9) ((b.data.length + 9 : Nat) : Int) = b.data.length + 9 by
        unfold pyClampIdx; split <;> omega]
  rw [show pyClampIdx (b.data.length + 9) 4 = 4 by
        unfold pyClampIdx; split <;> omega]
  rw [show b.data.length + 9 = (("ref/".data ++ b.data) ++ ".html".data).length from
        (rbh_length b).symm]
  rw [List.take_length, rbh_drop4]
  have hnone : pyFindIdx '/' (b.data ++ ".html".data) = none := by
    rw [pyFindIdx_eq_none_iff]
    intro hmem
    rcases List.mem_append.mp hmem with h1 | h2
    · exact hb h1
    · rw [show (".html".data : List Char) = ['.', 'h', 't', 'm', 'l'] from rfl] at h2
      simp at h2
  rw [hnone]

theorem target_shape_ok_ref_html (b : String) (hb : '/' ∉ b.data) :
    target_shape_ok ("ref/" ++ b ++ ".html") = true := by
  unfold target_shape_ok
  have h1 : pyStartsWith ("ref/" ++ b ++ ".html") "ref/" = true := by
    unfold pyStartsWith
    rw [ref_html_data]
    exact isPre_extend _ _ _ (isPre_append "ref/".data b.data)
  have h2 : pyEndsWith ("ref/" ++ b ++ ".html") ".html" = true := by
    unfold pyEndsWith
    rw [ref_html_data]
    exact isSuf_append ".html".data ("ref/".data ++ b.data)
  rw [h1, h2, pyFind_ref_html_slash b hb]
  rfl

/-- Claim C2 (confirmed): for every basename `b` without a `/`, the
predicate on `"ref/" + b + ".html"` passes its shape assert and returns
true iff `b` contains a dot. -/
theorem has_dot_in_target_basename_iff_dot (b : String) (hb : '/' ∉ b.data) :
    has_dot_in_target_basename ("ref/" ++ b ++ ".html") = some (decide ('.' ∈ b.data)) := by
  unfold has_dot_in_target_basename
  rw [target_shape_ok_ref_html b hb]
  simp only [if_true]
  congr 1
  rw [pyFind_ref_html_dot]
  cases h : pyFindIdx '.' b.data with
  | none =>
    have hnot : '.' ∉ b.data := (pyFindIdx_eq_none_iff _ _).mp h
    simp [hnot]
  | some i =>
    have hmem : '.' ∈ b.data := by
      by_contra hc
      rw [← pyFindIdx_eq_none_iff] at hc
      rw [h] at hc
      exact Option.noConfusion hc
    rw [decide_eq_decide]
    simp only [hmem, iff_true]
    exact lt_of_lt_of_le (by norm_num) (Int.natCast_nonneg _)

/-- Witness for C2 at the basename `myclass.bar`. -/
theorem has_dot_in_target_basename_iff_dot_witness :
    ('/' ∉ "myclass.bar".data)
      ∧ has_dot_in_target_basename ("ref/" ++ "myclass.bar" ++ ".html")
          = some (decide ('.' ∈ "myclass.bar".data)) :=
  ⟨by decide, has_dot_in_target_basename_iff_dot "myclass.bar" (by decide)⟩

/-- Claim C1, counterexample: with the empty name and the lower-case
qualified string `ab`, the code returns the empty string (Python
`q[:-0]` is the empty slice), not `ab` as the spec's replace-the-suffix
description demands, although `ab` ends with `"".lower()`. -/
theorem parse_fq_class_name_empty_name_cex :
    pyAsciiLower "ab" = "ab"
      ∧ pyEndsWith "ab" (pyAsciiLower "") = true
      ∧ parse_fq_class_name ("ref/" ++ "ab" ++ ".html") "" ≠ resolve_spec "ab" "" := by
  refine ⟨by decide, by decide, ?_⟩
  decide

/-- Claim C1 (amended to nonempty names): for every name `n` with
`len(n) ≥ 1` and lower-case `q` ending with the ASCII lowering of `n`,
the resolver applied to `"ref/" + q + ".html"` and `n` returns `q` with
its last `len(n)` characters replaced by the original-case `n`. -/
theorem parse_fq_class_name_replaces_suffix (q n : String)
    (_hlow : pyAsciiLower q = q) (hsuf : pyEndsWith q (pyAsciiLower n) = true)
    (hpos : 0 < n.length) :
    parse_fq_class_name ("ref/" ++ q ++ ".html") n = resolve_spec q n := by
  have hlen : n.data.length ≤ q.data.length := by
    unfold pyEndsWith at hsuf
    have h1 := isSuf_length_le _ _ hsuf
    have h2 : (pyAsciiLower n).data.length = n.data.length := by
      unfold pyAsciiLower
      simp [List.length_map]
    rw [h2] at h1
    exact h1
  have hpos' : 0 < n.data.length := hpos
  unfold parse_fq_class_name
  rw [pySlice_ref_html]
  unfold resolve_spec
  congr 1
  unfold pySlice
  congr 1
  rw [show pyClampIdx q.data.length 0 = 0 by unfold pyClampIdx; split <;> omega]
  rw [List.drop_zero]
  congr 1
  rw [str_length_data n]
  unfold pyClampIdx
  split <;> omega

/-- Witness for the amended C1 at `q = myclass.bar`, `n = Bar`. -/
theorem parse_fq_class_name_replaces_suffix_witness :
    pyAsciiLower "myclass.bar" = "myclass.bar"
      ∧ pyEndsWith "myclass.bar" (pyAsciiLower "Bar") = true
      ∧ 0 < "Bar".length
      ∧ parse_fq_class_name ("ref/" ++ "myclass.bar" ++ ".html") "Bar"
          = resolve_spec "myclass.bar" "Bar" :=
  ⟨by decide, by decide, by decide,
    parse_fq_class_name_replaces_suffix "myclass.bar" "Bar" (by decide) (by decide) (by decide)⟩

/-! Traversal lemmas. -/

theorem collect_contribs_append (pf : Bool) (x y : List XmlElement) :
    collect_contribs pf (x ++ y)
      = (match collect_contribs pf x, collect_contribs pf y with
         | some a, some b => some (a ++ b)
         | _, _ => none) := by
  induction x with
  | nil =>
    simp only [List.nil_append, collect_contribs]
    cases collect_contribs pf y <;> simp
  | cons nd rest ih =>
    simp only [List.cons_append, collect_contribs, List.append_eq]
    rw [ih]
    cases ref_entry_contribution pf nd.tag nd.attrib <;>
      cases collect_contribs pf rest <;>
      cases collect_contribs pf y <;>
      simp [List.append_assoc]

mutual

theorem dsff_eq_collect (pf : Bool) (e : XmlElement) :
    deep_search_for_functions pf e = collect_contribs pf (nodesOf e) := by
  cases e with
  | mk tag attrib children =>
    rw [nodesOf, collect_contribs, deep_search_for_functions,
      deepList_eq_collect pf children]
    rfl

theorem deepList_eq_collect (pf : Bool) (es : List XmlElement) :
    deepList pf es = collect_contribs pf (nodesOfList es) := by
  cases es with
  | nil => rw [deepList, nodesOfList, collect_contribs]
  | cons e rest =>
    rw [deepList, nodesOfList, collect_contribs_append,
      dsff_eq_collect pf e, deepList_eq_collect pf rest]

end

theorem collect_contribs_none_of_mem (pf : Bool) (nds : List XmlElement)
    (nd : XmlElement) (h1 : nd ∈ nds)
    (h2 : ref_entry_contribution pf nd.tag nd.attrib = none) :
    collect_contribs pf nds = none := by
  induction nds with
  | nil => cases h1
  | cons x rest ih =>
    rcases List.mem_cons.mp h1 with hx | hr
    · subst hx
      rw [collect_contribs, h2]
    · rw [collect_contribs, ih hr]
      cases ref_entry_contribution pf x.tag x.attrib <;> rfl

/-- Claim C6 (confirmed): for every tree and either flag value, the walker
returns exactly the concatenated per-node contributions over the
depth-first pre-order node list — children are visited below matched and
unmatched nodes alike, and duplicates are preserved (no deduplication),
as the nested duplicate example shows. -/
theorem deep_search_preorder_flat :
    (∀ (pf : Bool) (e : XmlElement),
        deep_search_for_functions pf e = collect_contribs pf (nodesOf e))
      ∧ deep_search_for_functions true nested_example_tree = some ["f", "f"] :=
  ⟨fun pf e => dsff_eq_collect pf e, by decide⟩

/-- Claim C5 (confirmed): with the default flag, any tree containing a
reference entry whose target violates the `ref/<basename>.html` shape
makes the walker die on the shape assert (`none`), never silently
skipping the entry. -/
theorem bad_target_shape_fatal (e : XmlElement)
    (h : (nodesOf e).any bad_shape_ref_node = true) :
    deep_search_for_functions _PRINT_FQCN e = none := by
  rw [show _PRINT_FQCN = true from rfl, dsff_eq_collect]
  rcases List.any_eq_true.mp h with ⟨nd, hmem, hbad⟩
  apply collect_contribs_none_of_mem true _ nd hmem
  cases nd with
  | mk t a c =>
    unfold bad_shape_ref_node at hbad
    simp only [XmlElement.tag, XmlElement.attrib, Bool.and_eq_true] at hbad ⊢
    obtain ⟨⟨⟨htag, hne⟩, hname⟩, htarget⟩ := hbad
    have hne' : a.isEmpty = false := by
      cases hae : a.isEmpty
      · rfl
      · rw [hae] at hne; simp at hne
    obtain ⟨n, hn⟩ := Option.isSome_iff_exists.mp hname
    cases ht : pyDictGet a "target" with
    | none => rw [ht] at htarget; simp at htarget
    | some t' =>
      rw [ht] at htarget
      simp only [Bool.not_eq_true'] at htarget
      unfold ref_entry_contribution
      rw [htag, hne', hn, ht]
      simp only [if_true, Bool.false_eq_true, if_false]
      unfold has_dot_in_target_basename
      rw [htarget]
      simp

/-- Witness for C5: a single reference entry whose target contains a
second path separator. -/
theorem bad_target_shape_fatal_witness :
    ((nodesOf (XmlElement.mk matlab_ref_tag
        [("name", "f"), ("target", "ref/a/b.html")] [])).any bad_shape_ref_node = true)
      ∧ deep_search_for_functions _PRINT_FQCN
          (XmlElement.mk matlab_ref_tag [("name", "f"), ("target", "ref/a/b.html")] [])
          = none :=
  ⟨by decide, bad_target_shape_fatal _ (by decide)⟩

/-- Claim C9 (confirmed): for either flag value, any tree containing a
reference-entry node with an empty attribute dict or a missing `name` or
`target` attribute makes the walker die on the attribute assert
(`none`) instead of skipping the node or substituting a default. -/
theorem missing_attribute_fatal (pf : Bool) (e : XmlElement)
    (h : (nodesOf e).any ref_missing_attr_node = true) :
    deep_search_for_functions pf e = none := by
  rw [dsff_eq_collect]
  rcases List.any_eq_true.mp h with ⟨nd, hmem, hbad⟩
  apply collect_contribs_none_of_mem pf _ nd hmem
  cases nd with
  | mk t a c =>
    unfold ref_missing_attr_node at hbad
    simp only [XmlElement.tag, XmlElement.attrib, Bool.and_eq_true, Bool.or_eq_true] at hbad ⊢
    obtain ⟨htag, hmiss⟩ := hbad
    unfold ref_entry_contribution
    rw [htag]
    simp only [if_true]
    rcases hmiss with (he | hn) | ht
    · rw [he]
      simp
    · rw [Option.isNone_iff_eq_none] at hn
      rw [hn]
      cases a.isEmpty <;> simp
    · rw [Option.isNone_iff_eq_none] at ht
      rw [ht]
      cases a.isEmpty <;> cases pyDictGet a "name" <;> simp

/-- Witness for C9: a reference entry carrying only a `name`. -/
theorem missing_attribute_fatal_witness :
    ((nodesOf (XmlElement.mk matlab_ref_tag [("name", "f")] [])).any
        ref_missing_attr_node = true)
      ∧ deep_search_for_functions _PRINT_FQCN
          (XmlElement.mk matlab_ref_tag [("name", "f")] []) = none :=
  ⟨by decide, missing_attribute_fatal _PRINT_FQCN _ (by decide)⟩

/-- Claim C10 (confirmed): with the flag off, a matched node with `name`
and `target` present contributes the raw name without the target's value
being inspected (in particular no shape assert runs): the result only
depends on the presence of the keys and the name's value. -/
theorem no_fqcn_skips_target_validation (attrib : List (String × String))
    (children : List XmlElement) (n t : String)
    (hn : pyDictGet attrib "name" = some n) (ht : pyDictGet attrib "target" = some t) :
    deep_search_for_functions false (XmlElement.mk matlab_ref_tag attrib children)
      = (deepList false children).map (fun rest => n :: rest) := by
  rw [deep_search_for_functions]
  have hne : attrib.isEmpty = false := by
    cases attrib
    · simp [pyDictGet] at hn
    · rfl
  rw [show ref_entry_contribution false matlab_ref_tag attrib = some [n] by
        unfold ref_entry_contribution
        rw [hn, ht, hne]
        simp]
  cases deepList false children <;> simp

/-- Witness for C10: a malformed target `ref/a/b.html` is accepted
silently when the flag is off. -/
theorem no_fqcn_skips_target_validation_witness :
    pyDictGet [("name", "X"), ("target", "ref/a/b.html")] "name" = some "X"
      ∧ pyDictGet [("name", "X"), ("target", "ref/a/b.html")] "target" = some "ref/a/b.html"
      ∧ deep_search_for_functions false
          (XmlElement.mk matlab_ref_tag [("name", "X"), ("target", "ref/a/b.html")] [])
          = (deepList false []).map (fun rest => "X" :: rest) :=
  ⟨by decide, by decide,
    no_fqcn_skips_target_validation [("name", "X"), ("target", "ref/a/b.html")] []
      "X" "ref/a/b.html" (by decide) (by decide)⟩

/-- Claim C3 (confirmed): the two-entry example tree resolves to
`["foo", "myclass.Bar"]`, and the formatter prints exactly the line
`    case {"foo", "myclass.Bar", }` (plus the newline of the final
`print`). -/
theorem end_to_end_two_entry_tree :
    deep_search_for_functions _PRINT_FQCN example_tree = some ["foo", "myclass.Bar"]
      ∧ print_for_octave ["foo", "myclass.Bar"]
          = "    case \x7b\x22foo\x22, \x22myclass.Bar\x22, \x7d\n" :=
  ⟨by decide, by decide⟩

/-! Sorting lemmas for the formatter. -/

theorem pyLeChars_total : ∀ x y : List Char, pyLeChars x y = true ∨ pyLeChars y x = true := by
  intro x
  induction x with
  | nil => intro y; left; rfl
  | cons a as ih =>
    intro y
    cases y with
    | nil => right; rfl
    | cons b bs =>
      simp only [pyLeChars]
      rcases Nat.lt_trichotomy a.toNat b.toNat with h | h | h
      · left; simp [h]
      · have h1 : ¬ a.toNat < b.toNat := by omega
        have h2 : ¬ b.toNat < a.toNat := by omega
        rcases ih bs with hl | hr
        · left; simp [h1, h2, hl]
        · right; simp [h1, h2, hr]
      · right; simp [h]

theorem pyLeChars_trans :
    ∀ x y z : List Char, pyLeChars x y = true → pyLeChars y z = true →
      pyLeChars x z = true := by
  intro x
  induction x with
  | nil => intro y z _ _; rfl
  | cons a as ih =>
    intro y z hxy hyz
    cases y with
    | nil => simp [pyLeChars] at hxy
    | cons b bs =>
      cases z with
      | nil => simp [pyLeChars] at hyz
      | cons c cs =>
        simp only [pyLeChars] at hxy hyz ⊢
        rcases Nat.lt_trichotomy a.toNat b.toNat with hab | hab | hab
        · rcases Nat.lt_trichotomy b.toNat c.toNat with hbc | hbc | hbc
          · simp [show a.toNat < c.toNat by omega]
          · simp [show a.toNat < c.toNat by omega]
          · simp [show ¬ b.toNat < c.toNat by omega, hbc] at hyz
        · have h1 : ¬ a.toNat < b.toNat := by omega
          have h2 : ¬ b.toNat < a.toNat := by omega
          simp only [h1, h2, if_false] at hxy
          rcases Nat.lt_trichotomy b.toNat c.toNat with hbc | hbc | hbc
          · simp [show a.toNat < c.toNat by omega]
          · have h3 : ¬ b.toNat < c.toNat := by omega
            have h4 : ¬ c.toNat < b.toNat := by omega
            simp only [h3, h4, if_false] at hyz
            simp only [show ¬ a.toNat < c.toNat by omega, show ¬ c.toNat < a.toNat by omega,
              if_false]
            exact ih bs cs hxy hyz
          · simp [show ¬ b.toNat < c.toNat by omega, hbc] at hyz
        · simp [show ¬ a.toNat < b.toNat by omega, hab] at hxy

theorem pyStrLe_total (s t : String) : pyStrLe s t = true ∨ pyStrLe t s = true :=
  pyLeChars_total s.data t.data

theorem pyStrLe_trans (a b c : String) (h1 : pyStrLe a b = true)
    (h2 : pyStrLe b c = true) : pyStrLe a c = true :=
  pyLeChars_trans a.data b.data c.data h1 h2

theorem pyInsert_perm (s : String) (l : List String) : (pyInsert s l).Perm (s :: l) := by
  induction l with
  | nil => exact List.Perm.refl _
  | cons t ts ih =>
    unfold pyInsert
    by_cases h : pyStrLe s t = true
    · rw [if_pos h]
    · rw [if_neg h]
      exact (List.Perm.cons t ih).trans (List.Perm.swap s t ts)

theorem pySorted_perm (l : List String) : (pySorted l).Perm l := by
  induction l with
  | nil => exact List.Perm.refl _
  | cons s ts ih => exact (pyInsert_perm s (pySorted ts)).trans (List.Perm.cons s ih)

theorem pyInsert_sorted (s : String) (l : List String)
    (h : l.Sorted (fun a b => pyStrLe a b = true)) :
    (pyInsert s l).Sorted (fun a b => pyStrLe a b = true) := by
  induction l with
  | nil => simp [pyInsert]
  | cons t ts ih =>
    rw [List.sorted_cons] at h
    obtain ⟨ht, hts⟩ := h
    by_cases hst : pyStrLe s t = true
    · unfold pyInsert
      rw [if_pos hst, List.sorted_cons]
      refine ⟨?_, ?_⟩
      · intro b hb
        rcases List.mem_cons.mp hb with rfl | hb'
        · exact hst
        · exact pyStrLe_trans s t b hst (ht b hb')
      · rw [List.sorted_cons]
        exact ⟨ht, hts⟩
    · unfold pyInsert
      rw [if_neg hst, List.sorted_cons]
      refine ⟨?_, ih hts⟩
      intro b hb
      have hmem : b = s ∨ b ∈ ts := by
        have := (pyInsert_perm s ts).mem_iff.mp hb
        simpa using this
      rcases hmem with rfl | hb'
      · rcases pyStrLe_total b t with h1 | h1
        · exact absurd h1 hst
        · exact h1
      · exact ht b hb'

theorem pySorted_sorted (l : List String) :
    (pySorted l).Sorted (fun a b => pyStrLe a b = true) := by
  induction l with
  | nil => simp [pySorted]
  | cons s ts ih => exact pyInsert_sorted s (pySorted ts) ih

/-- Claim C7 (confirmed): the formatter sorts by Python's plain
code-point string order before printing (a permutation of the input,
sorted with respect to code-point `≤`; on a linear order this output is
unique, so stability adds nothing observable), and on
`["zeta","Alpha","beta"]` the printed order is Alpha, beta, zeta —
capitals sort before lower case. -/
theorem print_for_octave_sorts_lexicographic :
    (∀ l : List String, (pySorted l).Perm l)
      ∧ (∀ l : List String, (pySorted l).Sorted (fun a b => pyStrLe a b = true))
      ∧ pySorted ["zeta", "Alpha", "beta"] = ["Alpha", "beta", "zeta"]
      ∧ print_for_octave ["zeta", "Alpha", "beta"]
          = "    case \x7b\x22Alpha\x22, \x22beta\x22, \x22zeta\x22, \x7d\n" :=
  ⟨pySorted_perm, pySorted_sorted, by decide, by decide⟩

/-! Formatter lemmas. -/

theorem octave_foldl_out (names : List String) :
    ∀ (a b : String) (pos : Nat),
      (names.foldl octave_step (a ++ b, pos)).1 = a ++ (names.foldl octave_step (b, pos)).1 := by
  induction names with
  | nil => intro a b pos; rfl
  | cons f fs ih =>
    intro a b pos
    simp only [List.foldl_cons, octave_step]
    by_cases h : pos + (f.length + 7) > 79
    · simp only [h, if_true]
      rw [show (((a ++ b) ++ "...\n") ++ "          ") ++ ("\x22" ++ f ++ "\x22, ")
            = a ++ ((((b ++ "...\n") ++ "          ")) ++ ("\x22" ++ f ++ "\x22, ")) by
          simp [String.append_assoc]]
      exact ih a _ _
    · simp only [h, if_false]
      rw [show (a ++ b) ++ ("\x22" ++ f ++ "\x22, ")
            = a ++ (b ++ ("\x22" ++ f ++ "\x22, ")) by
          simp [String.append_assoc]]
      exact ih a _ _

theorem wrapLines_ne_nil (fs : List String) :
    ∀ (pos : Nat) (line : String), wrapLines fs pos line ≠ [] := by
  induction fs with
  | nil => intro pos line; simp [wrapLines]
  | cons f fs ih =>
    intro pos line
    unfold wrapLines
    by_cases h : pos + (f.length + 7) > 79
    · simp [h]
    · simp only [h, if_false]
      exact ih _ _

theorem joinLines_cons (a : String) (l : List String) (h : l ≠ []) :
    joinLines (a :: l) = a ++ "\n" ++ joinLines l := by
  cases l with
  | nil => exact absurd rfl h
  | cons b bs => rfl

theorem foldl_eq_wrapLines (names : List String) :
    ∀ (pos : Nat) (line : String),
      (names.foldl octave_step (line, pos)).1 ++ "\x7d"
        = joinLines (wrapLines names pos line) := by
  induction names with
  | nil => intro pos line; rfl
  | cons f fs ih =>
    intro pos line
    simp only [List.foldl_cons, octave_step, wrapLines]
    by_cases h : pos + (f.length + 7) > 79
    · simp only [h, if_true]
      rw [joinLines_cons _ _ (wrapLines_ne_nil _ _ _)]
      rw [← ih (10 + (f.length + 4)) ("          " ++ ("\x22" ++ f ++ "\x22, "))]
      rw [show ((line ++ "...\n") ++ "          ") ++ ("\x22" ++ f ++ "\x22, ")
            = (line ++ "...\n") ++ ("          " ++ ("\x22" ++ f ++ "\x22, ")) from
          String.append_assoc _ _ _]
      rw [octave_foldl_out fs (line ++ "...\n") ("          " ++ ("\x22" ++ f ++ "\x22, "))
        (10 + (f.length + 4))]
      simp [String.append_assoc, show ("...\n" : String) = "..." ++ "\n" from rfl]
    · simp only [h, if_false]
      exact ih _ _

theorem pyStartsWith_append_right (s t p : String) (h : pyStartsWith s p = true) :
    pyStartsWith (s ++ t) p = true := by
  unfold pyStartsWith at h ⊢
  rw [str_data_append]
  exact isPre_extend _ _ _ h

theorem pyStartsWith_self_append (p t : String) : pyStartsWith (p ++ t) p = true := by
  unfold pyStartsWith
  rw [str_data_append]
  exact isPre_append _ _

theorem wrapLines_all_spaces (fs : List String) :
    ∀ (pos : Nat) (line : String), pyStartsWith line "          " = true →
      (wrapLines fs pos line).all (fun l => pyStartsWith l "          ") = true := by
  induction fs with
  | nil =>
    intro pos line h
    simp only [wrapLines, List.all_cons, List.all_nil, Bool.and_true]
    exact pyStartsWith_append_right _ _ _ h
  | cons f fs ih =>
    intro pos line h
    unfold wrapLines
    by_cases hc : pos + (f.length + 7) > 79
    · rw [if_pos hc, List.all_cons]
      rw [pyStartsWith_append_right _ _ _ h]
      rw [ih _ _ (pyStartsWith_self_append _ _)]
      rfl
    · rw [if_neg hc]
      exact ih _ _ (pyStartsWith_append_right _ _ _ h)

theorem wrapLines_tail_spaces (fs : List String) :
    ∀ (pos : Nat) (line : String),
      ((wrapLines fs pos line).drop 1).all (fun l => pyStartsWith l "          ") = true := by
  induction fs with
  | nil => intro pos line; simp [wrapLines]
  | cons f fs ih =>
    intro pos line
    unfold wrapLines
    by_cases hc : pos + (f.length + 7) > 79
    · rw [if_pos hc]
      simp only [List.drop_succ_cons, List.drop_zero]
      exact wrapLines_all_spaces _ _ _ (pyStartsWith_self_append _ _)
    · rw [if_neg hc]
      exact ih _ _

/-- Claim C4 (confirmed): the printed text is exactly the line-structured
rendering of the spec's layout rule — column position starts at 10 after
`    case {`, a wrap happens exactly when `pos + len(name) + 7 > 79`, the
wrapped line ends in the literal `...`, the continuation starts with ten
spaces, and the position advances by `len(name) + 4` per name (see
`wrapLines`); moreover every line after the first starts with the
ten-space continuation indent. -/
theorem print_for_octave_layout :
    (∀ fns : List String,
        print_for_octave fns
          = joinLines (wrapLines (pySorted fns) 10 "    case \x7b") ++ "\n")
      ∧ (∀ (fs : List String) (pos : Nat) (line : String),
          ((wrapLines fs pos line).drop 1).all (fun l => pyStartsWith l "          ") = true) := by
  constructor
  · intro fns
    unfold print_for_octave
    rw [← foldl_eq_wrapLines]
    rw [show ("\x7d\n" : String) = "\x7d" ++ "\n" from rfl, ← String.append_assoc]
  · exact wrapLines_tail_spaces

theorem pySorted_ne_nil (fns : List String) (h : fns ≠ []) : pySorted fns ≠ [] := by
  cases fns with
  | nil => exact absurd rfl h
  | cons s ts =>
    show pyInsert s (pySorted ts) ≠ []
    cases pySorted ts with
    | nil => simp [pyInsert]
    | cons t ts' =>
      unfold pyInsert
      split <;> simp

theorem octave_foldl_ends (names : List String) :
    ∀ acc : String × Nat, names ≠ [] →
      ∃ r : String, (names.foldl octave_step acc).1 = r ++ "\x22, " := by
  induction names with
  | nil => intro acc h; exact absurd rfl h
  | cons f fs ih =>
    intro acc _
    cases fs with
    | nil =>
      rw [List.foldl_cons, List.foldl_nil]
      unfold octave_step
      by_cases h : acc.2 + (f.length + 7) > 79
      · rw [if_pos h]
        exact ⟨((acc.1 ++ "...\n") ++ "          ") ++ ("\x22" ++ f), by
          simp [String.append_assoc]⟩
      · rw [if_neg h]
        exact ⟨acc.1 ++ ("\x22" ++ f), by simp [String.append_assoc]⟩
    | cons g gs =>
      rw [List.foldl_cons]
      exact ih _ (by simp)

/-- Claim C8 (confirmed): for a non-empty name list the separator `", "`
is emitted after every entry including the last, and the closing `}` of
the final `print` follows it, so the printed text ends with `, }`
followed by that final print's newline. -/
theorem print_for_octave_trailing_comma_space (fns : List String) (h : fns ≠ []) :
    pyEndsWith (print_for_octave fns) ", \x7d\n" = true := by
  unfold print_for_octave
  obtain ⟨r, hr⟩ := octave_foldl_ends (pySorted fns) ("    case \x7b", 10) (pySorted_ne_nil fns h)
  rw [hr]
  rw [show (r ++ "\x22, ") ++ "\x7d\n" = (r ++ "\x22") ++ ", \x7d\n" by
      rw [String.append_assoc, String.append_assoc]
      rfl]
  unfold pyEndsWith
  rw [str_data_append]
  exact isSuf_append (", \x7d\n".data) ((r ++ "\x22").data)

/-- Witness for C8 at the singleton list. -/
theorem print_for_octave_trailing_comma_space_witness :
    (["a"] ≠ ([] : List String))
      ∧ pyEndsWith (print_for_octave ["a"]) ", \x7d\n" = true :=
  ⟨by decide, print_for_octave_trailing_comma_space ["a"] (by decide)⟩
